import Mathlib

/-!
Verification of the DomainHunter availability-checking core.

The Go sources are shallowly embedded:
* `models.DomainResult` / verdicts: from the `models` package (the document
  following the README): `DomainStatus` is a string type with the constants
  `StatusAvailable | StatusTaken | StatusError | StatusChecking` (the
  spec's `Pending` is the code's transitional `checking`).  Timestamps
  (`CheckedAt`) and the optional error string are not modelled: no claim
  mentions them and no checking path reads them.
* Network effects (WHOIS lookups, DNS resolution) are modelled by an
  explicit environment `Env` mapping a domain to its WHOIS outcome
  (`none` = transport error) and its DNS outcome.
* Concurrency: goroutines write each into their own index of a pre-sized
  result slice; the only observable nondeterminism is the order in which
  the per-index writes land.  Bulk runners therefore take the write
  (completion) order as an explicit list of indices, universally
  quantified over all permutations in the theorems.  The buffered-channel
  semaphore is modelled separately as a guarded transition system.
* Go `strings.Contains` is byte-level containment of valid UTF-8, which
  coincides with character-list infix; `strings.ToLower` is modelled by
  the per-character ASCII lowering `toLowerStr` (all patterns in the
  program are ASCII); Go `len` on a string counts UTF-8 bytes, modelled
  by `goLen`.
-/

namespace DomainHunter

/-- The four `models.DomainStatus` constants: `StatusAvailable`,
`StatusTaken`, `StatusError` and the transitional `StatusChecking` (the
spec's `Pending`).  In Go the type is a string, whose further values no
checking path ever produces or reads. -/
inductive Status where
  | available : Status
  | taken : Status
  | error : Status
  | checking : Status
deriving DecidableEq, Repr

/-- `models.DomainResult`, restricted to the fields the checking code writes
and reads (`Domain`, `Status`). -/
structure DomainResult where
  domain : String
  status : Status
deriving DecidableEq, Repr

/-- Outcome of `resolver.LookupHost`: success, a DNS error with
`IsNotFound` set, or any other lookup error. -/
inductive DnsOutcome where
  | resolved : DnsOutcome
  | notFound : DnsOutcome
  | otherError : DnsOutcome
deriving DecidableEq, Repr

/-- The external world: WHOIS transport (`none` models a transport error,
`some text` a raw response) and DNS resolution per domain. -/
structure Env where
  whois : String → Option String
  dns : String → DnsOutcome

/-- Go `strings.ToLower`: per-character lowering (all classification
patterns in the program are ASCII, where the two agree). -/
def toLowerStr (s : String) : String :=
  String.mk (s.data.map Char.toLower)

/-- Go `strings.Contains s pat`: byte-level substring containment, which for
valid UTF-8 agrees with character-list infix. -/
def containsSubstr (s pat : String) : Bool :=
  decide (pat.data <:+: s.data)

/-- Go `len` on a string: the number of UTF-8 bytes. -/
def goLen (s : String) : Nat :=
  (s.data.map Char.utf8Size).sum

end DomainHunter

namespace DomainHunter.WhoisChecker

/-- `takenPatterns` of the current checker: substrings indicating the domain
IS registered, checked first. -/
def takenPatterns : List String :=
  [ "registrar:", "registrant:", "creation date:", "created:",
    "registry expiry date:", "expiration date:", "name server:",
    "nameserver:", "nserver:", "dnssec:", "registrar iana id:",
    "domain status:", "admin contact:", "tech contact:",
    "billing contact:" ]

/-- `availablePatterns` of the current checker: substrings indicating the
domain is NOT registered. -/
def availablePatterns : List String :=
  [ "no match for", "not found", "no entries found", "domain not found",
    "no data found", "status: free", "status: available",
    "no object found", "object does not exist", "nothing found",
    "no information available", "is available for registration",
    "is free", "domain is available", "the queried object does not exist",
    "no such domain", "domain name has not been registered",
    "no matching record" ]

/-- `Checker.Check` (current variant): WHOIS lookup; a transport error is
conservatively `taken`; otherwise the lowered response is matched against
the taken patterns, then the premium/reserved indicators, then the
available patterns; anything unclear is `taken`. -/
def Check (env : Env) (domain : String) : DomainResult :=
  match env.whois domain with
  | none => { domain := domain, status := Status.taken }
  | some whoisResult =>
    let whoisLower := toLowerStr whoisResult
    if takenPatterns.any (fun pat => containsSubstr whoisLower pat) then
      { domain := domain, status := Status.taken }
    else if (containsSubstr whoisLower "premium" || containsSubstr whoisLower "platinum")
        && (containsSubstr whoisLower "purchase" || containsSubstr whoisLower "contact"
            || containsSubstr whoisLower "offer" || containsSubstr whoisLower "reserved") then
      { domain := domain, status := Status.taken }
    else if containsSubstr whoisLower "this name is reserved" then
      { domain := domain, status := Status.taken }
    else if availablePatterns.any (fun pat => containsSubstr whoisLower pat) then
      { domain := domain, status := Status.available }
    else
      { domain := domain, status := Status.taken }

/-- `Checker.checkDNS` (current variant): `IsNotFound` means available; any
other lookup error is conservatively `taken`; a resolving host is `taken`. -/
def checkDNS (env : Env) (domain : String) : DomainResult :=
  match env.dns domain with
  | DnsOutcome.notFound => { domain := domain, status := Status.available }
  | DnsOutcome.otherError => { domain := domain, status := Status.taken }
  | DnsOutcome.resolved => { domain := domain, status := Status.taken }

/-- A `models.DomainResult` slice cell before its goroutine has written it
(the Go zero value: empty domain and an empty `DomainStatus` string,
stood for here by the transitional `checking` constant; the theorems show
no such placeholder survives into a returned batch). -/
def zeroResult : DomainResult :=
  { domain := "", status := Status.checking }

/-- The shared result slice after a set of index-addressed writes
`arr[idx] = check(domains[idx])` has landed in the given completion
`order`: the operational content of the goroutine fan-out, whose only
nondeterminism is that order. -/
def overwrite (check : String → DomainResult) (domains : List String)
    (init : List DomainResult) (order : List Nat) : List DomainResult :=
  order.foldl (fun acc i => acc.set i (check (domains.getD i ""))) init

/-- `Checker.CheckBulk`: one goroutine per domain writes
`results[idx] = c.Check(d)` into a pre-sized slice; `order` is the
completion interleaving (any permutation of the indices). -/
def CheckBulk (env : Env) (domains : List String) (order : List Nat) :
    List DomainResult :=
  overwrite (Check env) domains (List.replicate domains.length zeroResult) order

/-- Phase 1 of `Checker.CheckBulkHybrid`: the DNS sweep writes
`dnsResults[idx] = c.checkDNS(d)` under completion order `order1`. -/
def hybridPhase1 (env : Env) (domains : List String) (order1 : List Nat) :
    List DomainResult :=
  overwrite (checkDNS env) domains (List.replicate domains.length zeroResult) order1

/-- The candidate index set of `CheckBulkHybrid`: indices whose Phase 1
result is `StatusAvailable`, collected in slice order. -/
def candidates (env : Env) (domains : List String) (order1 : List Nat) :
    List Nat :=
  (List.range (hybridPhase1 env domains order1).length).filter
    (fun i => ((hybridPhase1 env domains order1).getD i zeroResult).status = Status.available)

/-- `Checker.CheckBulkHybrid`: Phase 1 DNS sweep, then Phase 2 overwrites
the candidate indices with the full WHOIS `Check`, under completion order
`order2` (any permutation of the candidate list). -/
def CheckBulkHybrid (env : Env) (domains : List String)
    (order1 order2 : List Nat) : List DomainResult :=
  overwrite (Check env) domains (hybridPhase1 env domains order1) order2

/-- `PremiumTLDs`: the curated TLD list for short-domain scanning. -/
def PremiumTLDs : List String :=
  [ "com", "net", "org", "io", "dev", "app", "ai", "co",
    "me", "tv", "gg", "so", "to", "is", "sh", "ly",
    "de", "uk", "es", "fr", "it", "nl", "ch", "at" ]

/-- The generation alphabet `"abcdefghijklmnopqrstuvwxyz0123456789"`. -/
def shortChars : List Char :=
  "abcdefghijklmnopqrstuvwxyz0123456789".data

/-- The `switch remainingLen` of `GenerateShortDomainsMultiTLD`: all names
extending the prefix by `k` further characters drawn from the alphabet, in
the nested loop order of the source; the uncovered default leaves the
name list empty. -/
def shortNames (k : Nat) (pfx : String) : List String :=
  match k with
  | 0 => [pfx]
  | 1 => shortChars.map (fun c => pfx.push c)
  | 2 => shortChars.flatMap (fun c1 =>
      shortChars.map (fun c2 => (pfx.push c1).push c2))
  | 3 => shortChars.flatMap (fun c1 =>
      shortChars.flatMap (fun c2 =>
        shortChars.map (fun c3 => ((pfx.push c1).push c2).push c3)))
  | _ => []

/-- `GenerateShortDomainsMultiTLD`: enumerates names of the requested byte
length extending the prefix over the alphabet, then crosses them with
`PremiumTLDs`; out-of-range lengths and over-long prefixes yield nil. -/
def GenerateShortDomainsMultiTLD (length : Int) (pfx : String) : List String :=
  if length < 1 || length > 3 then []
  else
    let remainingLen : Int := length - (goLen pfx : Int)
    if remainingLen < 0 then []
    else
      let names : List String := shortNames remainingLen.toNat pfx
      names.flatMap (fun name => PremiumTLDs.map (fun tld => name ++ "." ++ tld))

end DomainHunter.WhoisChecker

namespace DomainHunter.LegacyChecker

/-- `availablePatterns` of the earlier WHOIS-with-DNS-fallback variant. -/
def availablePatterns : List String :=
  [ "no match for", "not found", "no entries found", "domain not found",
    "no data found", "status: free", "status: available",
    "no object found", "object does not exist", "nothing found",
    "no information available", "is available for registration",
    "is free", "domain is available", "the queried object does not exist" ]

/-- `Checker.checkDNS` of the earlier variant: every lookup error (not just
`IsNotFound`) is classified `available`; a resolving host is `taken`. -/
def checkDNS (env : Env) (domain : String) : DomainResult :=
  match env.dns domain with
  | DnsOutcome.notFound => { domain := domain, status := Status.available }
  | DnsOutcome.otherError => { domain := domain, status := Status.available }
  | DnsOutcome.resolved => { domain := domain, status := Status.taken }

/-- `Checker.Check` of the earlier variant: on a WHOIS transport error it
falls back to the DNS check; otherwise the lowered response is matched
against the available patterns only, defaulting to `taken`. -/
def Check (env : Env) (domain : String) : DomainResult :=
  match env.whois domain with
  | none => checkDNS env domain
  | some whoisResult =>
    let whoisLower := toLowerStr whoisResult
    if availablePatterns.any (fun pat => containsSubstr whoisLower pat) then
      { domain := domain, status := Status.available }
    else
      { domain := domain, status := Status.taken }

end DomainHunter.LegacyChecker

namespace DomainHunter.DnsChecker

/-- `Checker.Check` of `internal/checker/checker.go` (DNS-only variant):
`IsNotFound` and every other lookup error are classified `available`;
a resolving host is `taken`. -/
def Check (env : Env) (domain : String) : DomainResult :=
  match env.dns domain with
  | DnsOutcome.notFound => { domain := domain, status := Status.available }
  | DnsOutcome.otherError => { domain := domain, status := Status.available }
  | DnsOutcome.resolved => { domain := domain, status := Status.taken }

end DomainHunter.DnsChecker

namespace DomainHunter.Handlers

/-- `strconv.Atoi` on the digits part: `none` unless the characters are a
non-empty all-digit sequence. -/
def digitsVal (cs : List Char) : Option Nat :=
  if cs.isEmpty then none
  else if cs.all (fun c => c.isDigit) then
    some (cs.foldl (fun acc c => acc * 10 + (c.toNat - 48)) 0)
  else none

/-- `strconv.Atoi`: optional sign followed by at least one digit, anything
else is a parse error (`none`).  Go additionally errors on 64-bit
overflow; that case is not modelled — every overflowing input is out of
the 1..3 range on both sides, so the handler's observable behaviour
agrees. -/
def atoi (s : String) : Option Int :=
  match s.data with
  | [] => none
  | c :: rest =>
    if c = '+' then (digitsVal rest).map (fun n => (n : Int))
    else if c = '-' then (digitsVal rest).map (fun n => -(n : Int))
    else (digitsVal (c :: rest)).map (fun n => (n : Int))

/-- The responses the `ScanShort` handler can write: the 405 error, the 400
length error, the empty-scan template (with or without a message), or the
results page. -/
inductive ScanResponse where
  | methodNotAllowed : ScanResponse
  | badRequest (msg : String) : ScanResponse
  | emptyPage : ScanResponse
  | emptyWithMsg (msg : String) : ScanResponse
  | resultsPage (avail : List DomainResult) (total checked : Nat) : ScanResponse
deriving DecidableEq, Repr

/-- Observable outcome of one `ScanShort` request: the response written,
the domains handed back by the generator, and the domains actually sent
into the checking pipeline (DNS/WHOIS lookups). -/
structure ScanOutcome where
  response : ScanResponse
  generated : List String
  lookups : List String
deriving DecidableEq, Repr

/-- The `ScanShort` handler: method gate, length parse and range check,
prefix-length gate, generation, then the hybrid check over the generated
domains; `order1`/`order2` are the completion interleavings of the two
pipeline phases. -/
def scanShort (env : Env) (method lengthStr pfxRaw : String)
    (order1 order2 : List Nat) : ScanOutcome :=
  if method ≠ "POST" then ⟨ScanResponse.methodNotAllowed, [], []⟩
  else
    let pfx := toLowerStr (pfxRaw.trim)
    match atoi lengthStr with
    | none => ⟨ScanResponse.badRequest "Length must be 1, 2, or 3", [], []⟩
    | some length =>
      if length < 1 || length > 3 then
        ⟨ScanResponse.badRequest "Length must be 1, 2, or 3", [], []⟩
      else
        let minPrefixLen : Int := length - 1
        if (goLen pfx : Int) < minPrefixLen then
          ⟨ScanResponse.emptyWithMsg ("For " ++ lengthStr ++
            "-char domains, please provide at least " ++
            toString minPrefixLen ++ " character(s) as prefix"), [], []⟩
        else
          let domains := WhoisChecker.GenerateShortDomainsMultiTLD length pfx
          if domains.isEmpty then ⟨ScanResponse.emptyPage, domains, []⟩
          else
            let allResults := WhoisChecker.CheckBulkHybrid env domains order1 order2
            let avail := allResults.filter (fun r => r.status = Status.available)
            ⟨ScanResponse.resultsPage avail avail.length domains.length,
              domains, domains⟩

end DomainHunter.Handlers

namespace DomainHunter.Semaphore

/-- Protocol state of one spawned goroutine: not yet holding a permit,
holding a permit while its network call runs, or finished (permit
released, `wg.Done` called). -/
inductive TaskState where
  | idle : TaskState
  | running : TaskState
  | finished : TaskState
deriving DecidableEq, Repr

/-- Number of tasks currently holding a semaphore permit, i.e. network
calls in flight. -/
def inFlight (ts : List TaskState) : Nat :=
  ts.count TaskState.running

/-- One scheduler step of the batch runner's semaphore protocol for
capacity `cap`: `acquire` models `semaphore <- struct{}{}` on a buffered
channel of capacity `cap` — it can only fire while fewer than `cap`
permits are held (a send on a full buffered channel blocks) — and
`release` models the network call finishing followed by `<-semaphore`
and `wg.Done()`.  A task enters `running` (performs its network call)
only through the guarded `acquire`. -/
inductive Step (cap : Nat) : List TaskState → List TaskState → Prop where
  | acquire (ts : List TaskState) (i : Nat) (h : i < ts.length)
      (hidle : ts.get ⟨i, h⟩ = TaskState.idle)
      (hcap : inFlight ts < cap) :
      Step cap ts (ts.set i TaskState.running)
  | release (ts : List TaskState) (i : Nat) (h : i < ts.length)
      (hrun : ts.get ⟨i, h⟩ = TaskState.running) :
      Step cap ts (ts.set i TaskState.finished)

/-- Reachability from the spawn state of an `n`-domain batch (all tasks
spawned, none holding a permit). -/
def Reach (cap n : Nat) (ts : List TaskState) : Prop :=
  Relation.ReflTransGen (Step cap) (List.replicate n TaskState.idle) ts

/-- `wg.Wait()` returns exactly in these states: every spawned task has
completed. -/
def allFinished (ts : List TaskState) : Prop :=
  ∀ t ∈ ts, t = TaskState.finished

/-- The WHOIS concurrency bound: `make(chan struct{}, 5)` in `CheckBulk`
and in Phase 2 of `CheckBulkHybrid`. -/
def whoisConcurrencyLimit : Nat := 5

/-- The DNS concurrency bound: `make(chan struct{}, 50)` in Phase 1 of
`CheckBulkHybrid`. -/
def dnsConcurrencyLimit : Nat := 50

/-- Termination measure: each task still takes two steps if idle and one
if running; every scheduler step strictly decreases it. -/
def pendingWork (ts : List TaskState) : Nat :=
  2 * ts.count TaskState.idle + ts.count TaskState.running

end DomainHunter.Semaphore

namespace DomainHunter

/-- The spec's terminal-result invariant: a result carries `Available` or
`Taken` (never `Error`, nor the transitional `Checking` — the spec's
`Pending`). -/
def terminalStatus (r : DomainResult) : Prop :=
  r.status = Status.available ∨ r.status = Status.taken

/-- Concrete world where every WHOIS lookup fails in transport and every
DNS lookup reports name-not-found. -/
def envWhoisDown : Env :=
  { whois := fun _ => none, dns := fun _ => DnsOutcome.notFound }

/-- Concrete world where every WHOIS lookup fails and every DNS lookup
fails with an ambiguous (non-`IsNotFound`) error. -/
def envDnsAmbiguous : Env :=
  { whois := fun _ => none, dns := fun _ => DnsOutcome.otherError }

/-- Concrete world where `a.com` resolves and everything else is
name-not-found, while WHOIS always answers with an availability phrase. -/
def envMixed : Env :=
  { whois := fun _ => some "No match for query",
    dns := fun d => if d = "a.com" then DnsOutcome.resolved else DnsOutcome.notFound }

/-- Concrete world whose WHOIS response holds both a registration
indicator and an availability indicator. -/
def envRegistrar : Env :=
  { whois := fun _ => some "Registrar: Example Inc. -- not found elsewhere",
    dns := fun _ => DnsOutcome.resolved }

/-- Concrete world whose WHOIS response holds a premium/reserved indicator
pair together with an availability indicator. -/
def envPremium : Env :=
  { whois := fun _ => some "This is a PREMIUM listing. Purchase to own. Not found",
    dns := fun _ => DnsOutcome.resolved }

end DomainHunter

namespace DomainHunter.WhoisChecker

/-- The per-input content of claim C10 about
`GenerateShortDomainsMultiTLD length pfx`: exactly
`36 ^ (length - len pfx) * 24` domains over the 24 `PremiumTLDs`, each of
the form `name ++ "." ++ tld` where `name` extends `pfx`, has exactly the
requested byte length, and is drawn from the lowercase alphanumeric
alphabet. -/
def shortScanClaim (length : Int) (pfx : String) : Prop :=
  (GenerateShortDomainsMultiTLD length pfx).length =
      36 ^ (length - (goLen pfx : Int)).toNat * 24 ∧
  PremiumTLDs.length = 24 ∧
  ∀ d ∈ GenerateShortDomainsMultiTLD length pfx,
    ∃ name tld, d = name ++ "." ++ tld ∧ tld ∈ PremiumTLDs ∧
      pfx.data <+: name.data ∧ (name.data.length : Int) = length ∧
      ∀ c ∈ name.data, c ∈ shortChars

end DomainHunter.WhoisChecker

namespace DomainHunter.WhoisChecker

theorem overwrite_cons (check : String → DomainResult) (domains : List String)
    (init : List DomainResult) (j : Nat) (rest : List Nat) :
    overwrite check domains init (j :: rest) =
      overwrite check domains (init.set j (check (domains.getD j ""))) rest := rfl

theorem length_overwrite (check : String → DomainResult) (domains : List String)
    (init : List DomainResult) (order : List Nat) :
    (overwrite check domains init order).length = init.length := by
  induction order generalizing init with
  | nil => rfl
  | cons j rest ih => rw [overwrite_cons, ih, List.length_set]

theorem getElem?_overwrite (check : String → DomainResult) (domains : List String)
    (init : List DomainResult) (order : List Nat) (i : Nat) :
    (overwrite check domains init order)[i]? =
      if i ∈ order ∧ i < init.length then some (check (domains.getD i ""))
      else init[i]? := by
  induction order generalizing init with
  | nil => simp [overwrite]
  | cons j rest ih =>
    rw [overwrite_cons, ih, List.length_set]
    by_cases hlen : i < init.length
    · by_cases hmem : i ∈ rest
      · simp [hmem, hlen, List.mem_cons]
      · by_cases hij : j = i
        · subst hij
          simp [hmem, hlen, List.mem_cons, List.getElem?_set]
        · simp [hmem, hlen, List.mem_cons, List.getElem?_set, hij, Ne.symm hij]
    · have h1 : (init.set j (check (domains.getD j "")))[i]? = none :=
        List.getElem?_eq_none (by rw [List.length_set]; omega)
      have h2 : init[i]? = none := List.getElem?_eq_none (by omega)
      simp only [h1, h2]
      rw [if_neg (fun hc => hlen hc.2), if_neg (fun hc => hlen hc.2)]

theorem Check_domain (env : Env) (d : String) : (Check env d).domain = d := by
  unfold Check
  cases env.whois d with
  | none => rfl
  | some t =>
    dsimp only
    split_ifs <;> rfl

theorem checkDNS_domain (env : Env) (d : String) : (checkDNS env d).domain = d := by
  unfold checkDNS
  cases env.dns d <;> rfl

theorem Check_status_terminal (env : Env) (d : String) :
    (Check env d).status = Status.available ∨ (Check env d).status = Status.taken := by
  unfold Check
  cases env.whois d with
  | none => right; rfl
  | some t =>
    dsimp only
    split_ifs <;> simp

theorem checkDNS_status_terminal (env : Env) (d : String) :
    (checkDNS env d).status = Status.available ∨
      (checkDNS env d).status = Status.taken := by
  unfold checkDNS
  cases env.dns d <;> simp

theorem length_checkBulk (env : Env) (domains : List String) (order : List Nat) :
    (CheckBulk env domains order).length = domains.length := by
  unfold CheckBulk
  rw [length_overwrite, List.length_replicate]

theorem getElem?_checkBulk (env : Env) (domains : List String) (order : List Nat)
    (hperm : order.Perm (List.range domains.length)) (i : Nat)
    (hi : i < domains.length) :
    (CheckBulk env domains order)[i]? = some (Check env (domains.getD i "")) := by
  unfold CheckBulk
  rw [getElem?_overwrite]
  have hmem : i ∈ order := (hperm.mem_iff).mpr (List.mem_range.mpr hi)
  simp [hmem, hi]

theorem length_hybridPhase1 (env : Env) (domains : List String) (order1 : List Nat) :
    (hybridPhase1 env domains order1).length = domains.length := by
  unfold hybridPhase1
  rw [length_overwrite, List.length_replicate]

theorem getElem?_hybridPhase1 (env : Env) (domains : List String)
    (order1 : List Nat) (hperm : order1.Perm (List.range domains.length))
    (i : Nat) (hi : i < domains.length) :
    (hybridPhase1 env domains order1)[i]? = some (checkDNS env (domains.getD i "")) := by
  unfold hybridPhase1
  rw [getElem?_overwrite]
  have hmem : i ∈ order1 := (hperm.mem_iff).mpr (List.mem_range.mpr hi)
  simp [hmem, hi]

theorem mem_candidates_iff (env : Env) (domains : List String) (order1 : List Nat)
    (i : Nat) :
    i ∈ candidates env domains order1 ↔
      i < domains.length ∧
        ((hybridPhase1 env domains order1).getD i zeroResult).status =
          Status.available := by
  unfold candidates
  rw [List.mem_filter, List.mem_range, length_hybridPhase1]
  simp

theorem length_checkBulkHybrid (env : Env) (domains : List String)
    (order1 order2 : List Nat) :
    (CheckBulkHybrid env domains order1 order2).length = domains.length := by
  unfold CheckBulkHybrid
  rw [length_overwrite, length_hybridPhase1]

theorem getElem?_checkBulkHybrid (env : Env) (domains : List String)
    (order1 order2 : List Nat)
    (hperm1 : order1.Perm (List.range domains.length))
    (hperm2 : order2.Perm (candidates env domains order1))
    (i : Nat) (hi : i < domains.length) :
    (CheckBulkHybrid env domains order1 order2)[i]? =
      if (checkDNS env (domains.getD i "")).status = Status.available then
        some (Check env (domains.getD i ""))
      else some (checkDNS env (domains.getD i "")) := by
  unfold CheckBulkHybrid
  rw [getElem?_overwrite, length_hybridPhase1]
  have hph1 : (hybridPhase1 env domains order1)[i]? =
      some (checkDNS env (domains.getD i "")) :=
    getElem?_hybridPhase1 env domains order1 hperm1 i hi
  have hgetD : ((hybridPhase1 env domains order1).getD i zeroResult) =
      checkDNS env (domains.getD i "") := by
    rw [List.getD_eq_getElem?_getD, hph1]
    rfl
  have hcand : i ∈ order2 ↔
      (checkDNS env (domains.getD i "")).status = Status.available := by
    rw [hperm2.mem_iff, mem_candidates_iff, hgetD]
    constructor
    · rintro ⟨_, h⟩; exact h
    · intro h; exact ⟨hi, h⟩
  by_cases hav : (checkDNS env (domains.getD i "")).status = Status.available
  · rw [if_pos ⟨hcand.mpr hav, hi⟩, if_pos hav]
  · have hnot : i ∉ order2 := fun hmem => hav (hcand.mp hmem)
    rw [if_neg (fun hc => hnot hc.1), hph1, if_neg hav]

end DomainHunter.WhoisChecker

namespace DomainHunter.WhoisChecker

theorem map_domain_of_pointwise (res : List DomainResult) (domains : List String)
    (hlen : res.length = domains.length)
    (hdom : ∀ i, i < domains.length →
      (res[i]?).map (fun r => r.domain) = some (domains.getD i "")) :
    res.map (fun r => r.domain) = domains := by
  apply List.ext_getElem?
  intro i
  rw [List.getElem?_map]
  by_cases hi : i < domains.length
  · rw [hdom i hi, List.getD_eq_getElem?_getD, List.getElem?_eq_getElem hi]
    rfl
  · rw [List.getElem?_eq_none (by omega), List.getElem?_eq_none (by omega)]
    rfl

/-- C1: for every input list of domains, `CheckBulk` and `CheckBulkHybrid`
return a result list of the same length as the input whose `i`-th entry
carries the `i`-th input domain in its domain field, for every completion
interleaving (any permutation `order` of the indices, and any permutations
`order1`, `order2` of the two hybrid phases). -/
theorem claim_C1_batch_order_invariant (env : Env) (domains : List String)
    (order order1 order2 : List Nat)
    (hperm : order.Perm (List.range domains.length))
    (hperm1 : order1.Perm (List.range domains.length))
    (hperm2 : order2.Perm (candidates env domains order1)) :
    ((CheckBulk env domains order).length = domains.length ∧
      (CheckBulk env domains order).map (fun r => r.domain) = domains) ∧
    ((CheckBulkHybrid env domains order1 order2).length = domains.length ∧
      (CheckBulkHybrid env domains order1 order2).map (fun r => r.domain) =
        domains) := by
  refine ⟨⟨length_checkBulk env domains order, ?_⟩,
    ⟨length_checkBulkHybrid env domains order1 order2, ?_⟩⟩
  · apply map_domain_of_pointwise _ _ (length_checkBulk env domains order)
    intro i hi
    rw [getElem?_checkBulk env domains order hperm i hi]
    simp [Check_domain]
  · apply map_domain_of_pointwise _ _
      (length_checkBulkHybrid env domains order1 order2)
    intro i hi
    rw [getElem?_checkBulkHybrid env domains order1 order2 hperm1 hperm2 i hi]
    by_cases hav : (checkDNS env (domains.getD i "")).status = Status.available
    · rw [if_pos hav]
      simp [Check_domain]
    · rw [if_neg hav]
      simp [checkDNS_domain]

theorem claim_C1_witness :
    ([1, 0] : List Nat).Perm (List.range (["a.com", "b.com"] : List String).length) ∧
    ([1] : List Nat).Perm (candidates envMixed ["a.com", "b.com"] [1, 0]) ∧
    (((CheckBulk envMixed ["a.com", "b.com"] [1, 0]).length = 2 ∧
      (CheckBulk envMixed ["a.com", "b.com"] [1, 0]).map (fun r => r.domain) =
        ["a.com", "b.com"]) ∧
     ((CheckBulkHybrid envMixed ["a.com", "b.com"] [1, 0] [1]).length = 2 ∧
      (CheckBulkHybrid envMixed ["a.com", "b.com"] [1, 0] [1]).map
          (fun r => r.domain) = ["a.com", "b.com"])) :=
  ⟨by decide, by decide,
    claim_C1_batch_order_invariant envMixed ["a.com", "b.com"] [1, 0] [1, 0] [1]
      (by decide) (by decide) (by decide)⟩

/-- C2: whenever the WHOIS response text contains a registration-indicator
substring (after lowering), the classifier returns `Taken`, even if the
text also contains availability indicators: the taken patterns are checked
first. -/
theorem claim_C2_taken_patterns_win (env : Env) (d text : String)
    (hresp : env.whois d = some text)
    (hpat : ∃ pat ∈ takenPatterns,
      containsSubstr (toLowerStr text) pat = true) :
    (Check env d).status = Status.taken := by
  unfold Check
  rw [hresp]
  dsimp only
  rw [if_pos (List.any_eq_true.mpr (by
    obtain ⟨pat, hmem, hc⟩ := hpat
    exact ⟨pat, hmem, hc⟩))]

theorem claim_C2_witness :
    envRegistrar.whois "ex.com" =
      some "Registrar: Example Inc. -- not found elsewhere" ∧
    (∃ pat ∈ takenPatterns,
      containsSubstr
        (toLowerStr "Registrar: Example Inc. -- not found elsewhere") pat
        = true) ∧
    (∃ pat ∈ availablePatterns,
      containsSubstr
        (toLowerStr "Registrar: Example Inc. -- not found elsewhere") pat
        = true) ∧
    (Check envRegistrar "ex.com").status = Status.taken :=
  ⟨rfl, by decide, by decide,
    claim_C2_taken_patterns_win envRegistrar "ex.com" _ rfl (by decide)⟩

end DomainHunter.WhoisChecker

namespace DomainHunter

/-- C3: for every domain, if the WHOIS lookup fails to produce a response
(transport error), the single-domain `Check` returns the verdict `Taken`
and never `Available`: the absent response is classified conservatively
before any pattern matching.  (The earlier `LegacyChecker` snapshot never
exercises this classification rule — on a transport error it delegates to
its DNS fallback instead of classifying the absent response.) -/
theorem claim_C3_whois_failure_taken (env : Env) (d : String)
    (hfail : env.whois d = none) :
    (WhoisChecker.Check env d).status = Status.taken ∧
    (WhoisChecker.Check env d).status ≠ Status.available := by
  have htaken : (WhoisChecker.Check env d).status = Status.taken := by
    unfold WhoisChecker.Check
    rw [hfail]
  refine ⟨htaken, ?_⟩
  rw [htaken]
  decide

theorem claim_C3_witness :
    envWhoisDown.whois "shaky.dev" = none ∧
    ((WhoisChecker.Check envWhoisDown "shaky.dev").status = Status.taken ∧
      (WhoisChecker.Check envWhoisDown "shaky.dev").status ≠ Status.available) :=
  ⟨rfl, claim_C3_whois_failure_taken envWhoisDown "shaky.dev" rfl⟩

/-- C5 (counterexample): on an ambiguous DNS error (not name-not-found)
the standalone DNS-only checker answers `Available` while the hybrid
pipeline's Phase 1 probe answers `Taken` — the two policies are not the
same. -/
theorem claim_C5_counterexample :
    envDnsAmbiguous.dns "glitch.io" = DnsOutcome.otherError ∧
    (DnsChecker.Check envDnsAmbiguous "glitch.io").status = Status.available ∧
    (WhoisChecker.checkDNS envDnsAmbiguous "glitch.io").status = Status.taken ∧
    (DnsChecker.Check envDnsAmbiguous "glitch.io").status ≠
      (WhoisChecker.checkDNS envDnsAmbiguous "glitch.io").status := by
  refine ⟨rfl, rfl, rfl, ?_⟩
  decide

/-- C5 (amended): the two DNS classifiers disagree on ambiguous lookup
errors — the standalone checker maps them to `Available`, the hybrid
Phase 1 probe maps them to `Taken`. -/
theorem claim_C5_ambiguous_dns_divergence (env : Env) (d : String)
    (hambig : env.dns d = DnsOutcome.otherError) :
    (DnsChecker.Check env d).status = Status.available ∧
    (WhoisChecker.checkDNS env d).status = Status.taken := by
  unfold DnsChecker.Check WhoisChecker.checkDNS
  rw [hambig]
  exact ⟨rfl, rfl⟩

theorem claim_C5_witness :
    envDnsAmbiguous.dns "glitch.io" = DnsOutcome.otherError ∧
    ((DnsChecker.Check envDnsAmbiguous "glitch.io").status = Status.available ∧
      (WhoisChecker.checkDNS envDnsAmbiguous "glitch.io").status = Status.taken) :=
  ⟨rfl, claim_C5_ambiguous_dns_divergence envDnsAmbiguous "glitch.io" rfl⟩

end DomainHunter

namespace DomainHunter.WhoisChecker

/-- C6: a WHOIS response with no registration indicator but with
("premium" or "platinum") together with ("purchase", "contact", "offer"
or "reserved"), or with the literal phrase "this name is reserved",
classifies as `Taken`, even if an availability indicator is present:
the premium/reserved branch precedes the availability scan. -/
theorem claim_C6_premium_reserved_taken (env : Env) (d text : String)
    (hresp : env.whois d = some text)
    (hnotaken : ¬ ∃ pat ∈ takenPatterns,
      containsSubstr (toLowerStr text) pat = true)
    (hprem :
      ((containsSubstr (toLowerStr text) "premium" = true ∨
          containsSubstr (toLowerStr text) "platinum" = true) ∧
        (containsSubstr (toLowerStr text) "purchase" = true ∨
          containsSubstr (toLowerStr text) "contact" = true ∨
          containsSubstr (toLowerStr text) "offer" = true ∨
          containsSubstr (toLowerStr text) "reserved" = true)) ∨
      containsSubstr (toLowerStr text) "this name is reserved" = true) :
    (Check env d).status = Status.taken := by
  unfold Check
  rw [hresp]
  dsimp only
  split_ifs with h1 h2 h3 h4 <;> try rfl
  exfalso
  rcases hprem with ⟨hA, hB⟩ | hres
  · apply h2
    simp only [Bool.and_eq_true, Bool.or_eq_true]
    exact ⟨hA, by tauto⟩
  · exact h3 hres

theorem claim_C6_witness :
    envPremium.whois "gold.com" =
      some "This is a PREMIUM listing. Purchase to own. Not found" ∧
    (¬ ∃ pat ∈ takenPatterns,
      containsSubstr
        (toLowerStr "This is a PREMIUM listing. Purchase to own. Not found")
        pat = true) ∧
    (∃ pat ∈ availablePatterns,
      containsSubstr
        (toLowerStr "This is a PREMIUM listing. Purchase to own. Not found")
        pat = true) ∧
    (Check envPremium "gold.com").status = Status.taken :=
  ⟨rfl, by decide, by decide,
    claim_C6_premium_reserved_taken envPremium "gold.com" _ rfl (by decide)
      (by decide)⟩

end DomainHunter.WhoisChecker

namespace DomainHunter.WhoisChecker

/-- C4: in `CheckBulkHybrid`, a domain whose Phase 1 DNS probe says `Taken`
keeps its unchanged Phase 1 result and is never handed to Phase 2 (it is
not a candidate, so no Phase 2 task exists for it); Phase 2 runs exactly
over the indices whose Phase 1 verdict is `Available` and overwrites those
entries with the full WHOIS `Check` result. -/
theorem claim_C4_phase2_scope (env : Env) (domains : List String)
    (order1 order2 : List Nat)
    (hperm1 : order1.Perm (List.range domains.length))
    (hperm2 : order2.Perm (candidates env domains order1))
    (i : Nat) (hi : i < domains.length) :
    (i ∈ candidates env domains order1 ↔
      (checkDNS env (domains.getD i "")).status = Status.available) ∧
    ((checkDNS env (domains.getD i "")).status = Status.taken →
      (CheckBulkHybrid env domains order1 order2)[i]? =
        (hybridPhase1 env domains order1)[i]? ∧
      i ∉ order2) ∧
    ((checkDNS env (domains.getD i "")).status = Status.available →
      (CheckBulkHybrid env domains order1 order2)[i]? =
        some (Check env (domains.getD i ""))) := by
  have hph1 : (hybridPhase1 env domains order1)[i]? =
      some (checkDNS env (domains.getD i "")) :=
    getElem?_hybridPhase1 env domains order1 hperm1 i hi
  have hgetD : ((hybridPhase1 env domains order1).getD i zeroResult) =
      checkDNS env (domains.getD i "") := by
    rw [List.getD_eq_getElem?_getD, hph1]
    rfl
  have hcand : i ∈ candidates env domains order1 ↔
      (checkDNS env (domains.getD i "")).status = Status.available := by
    rw [mem_candidates_iff, hgetD]
    constructor
    · rintro ⟨_, h⟩
      exact h
    · intro h
      exact ⟨hi, h⟩
  have hfinal := getElem?_checkBulkHybrid env domains order1 order2 hperm1 hperm2 i hi
  refine ⟨hcand, ?_, ?_⟩
  · intro htaken
    have hnav : ¬ (checkDNS env (domains.getD i "")).status = Status.available := by
      rw [htaken]
      decide
    constructor
    · rw [hfinal, if_neg hnav, hph1]
    · intro hmem
      exact hnav (hcand.mp ((hperm2.mem_iff).mp hmem))
  · intro hav
    rw [hfinal, if_pos hav]

theorem claim_C4_witness :
    ([1, 0] : List Nat).Perm
      (List.range (["a.com", "b.com"] : List String).length) ∧
    ([1] : List Nat).Perm (candidates envMixed ["a.com", "b.com"] [1, 0]) ∧
    (0 : Nat) < (["a.com", "b.com"] : List String).length ∧
    ((0 ∈ candidates envMixed ["a.com", "b.com"] [1, 0] ↔
      (checkDNS envMixed (["a.com", "b.com"].getD 0 "")).status =
        Status.available) ∧
    ((checkDNS envMixed (["a.com", "b.com"].getD 0 "")).status = Status.taken →
      (CheckBulkHybrid envMixed ["a.com", "b.com"] [1, 0] [1])[0]? =
        (hybridPhase1 envMixed ["a.com", "b.com"] [1, 0])[0]? ∧
      0 ∉ ([1] : List Nat)) ∧
    ((checkDNS envMixed (["a.com", "b.com"].getD 0 "")).status =
        Status.available →
      (CheckBulkHybrid envMixed ["a.com", "b.com"] [1, 0] [1])[0]? =
        some (Check envMixed (["a.com", "b.com"].getD 0 "")))) :=
  ⟨by decide, by decide, by decide,
    claim_C4_phase2_scope envMixed ["a.com", "b.com"] [1, 0] [1]
      (by decide) (by decide) 0 (by decide)⟩

/-- C7: every result produced by the checking operations — the single
WHOIS `Check`, the DNS probe `checkDNS`, the DNS-only variant's `Check`,
and every entry of a returned `CheckBulk` or `CheckBulkHybrid` batch —
carries the verdict `Available` or `Taken`, never `Error` or `Pending`. -/
theorem claim_C7_terminal_verdicts (env : Env) (d : String)
    (domains : List String) (order order1 order2 : List Nat)
    (hperm : order.Perm (List.range domains.length))
    (hperm1 : order1.Perm (List.range domains.length))
    (hperm2 : order2.Perm (candidates env domains order1)) :
    terminalStatus (Check env d) ∧
    terminalStatus (checkDNS env d) ∧
    terminalStatus (DnsChecker.Check env d) ∧
    (∀ r ∈ CheckBulk env domains order, terminalStatus r) ∧
    (∀ r ∈ CheckBulkHybrid env domains order1 order2, terminalStatus r) := by
  refine ⟨Check_status_terminal env d, checkDNS_status_terminal env d, ?_, ?_, ?_⟩
  · unfold DnsChecker.Check terminalStatus
    cases env.dns d <;> simp
  · intro r hr
    obtain ⟨i, hiq⟩ := List.mem_iff_getElem?.mp hr
    have hi : i < domains.length := by
      have := List.getElem?_eq_some_iff.mp hiq
      obtain ⟨hlt, _⟩ := this
      rwa [length_checkBulk] at hlt
    rw [getElem?_checkBulk env domains order hperm i hi] at hiq
    obtain rfl : Check env (domains.getD i "") = r := Option.some.inj hiq
    exact Check_status_terminal env _
  · intro r hr
    obtain ⟨i, hiq⟩ := List.mem_iff_getElem?.mp hr
    have hi : i < domains.length := by
      have := List.getElem?_eq_some_iff.mp hiq
      obtain ⟨hlt, _⟩ := this
      rwa [length_checkBulkHybrid] at hlt
    rw [getElem?_checkBulkHybrid env domains order1 order2 hperm1 hperm2 i hi] at hiq
    by_cases hav : (checkDNS env (domains.getD i "")).status = Status.available
    · rw [if_pos hav] at hiq
      obtain rfl : Check env (domains.getD i "") = r := Option.some.inj hiq
      exact Check_status_terminal env _
    · rw [if_neg hav] at hiq
      obtain rfl : checkDNS env (domains.getD i "") = r := Option.some.inj hiq
      exact checkDNS_status_terminal env _

theorem claim_C7_witness :
    ([1, 0] : List Nat).Perm
      (List.range (["a.com", "b.com"] : List String).length) ∧
    ([1] : List Nat).Perm (candidates envMixed ["a.com", "b.com"] [1, 0]) ∧
    (terminalStatus (Check envMixed "a.com") ∧
      terminalStatus (checkDNS envMixed "a.com") ∧
      terminalStatus (DnsChecker.Check envMixed "a.com") ∧
      (∀ r ∈ CheckBulk envMixed ["a.com", "b.com"] [1, 0], terminalStatus r) ∧
      (∀ r ∈ CheckBulkHybrid envMixed ["a.com", "b.com"] [1, 0] [1],
        terminalStatus r)) :=
  ⟨by decide, by decide,
    claim_C7_terminal_verdicts envMixed "a.com" ["a.com", "b.com"]
      [1, 0] [1, 0] [1] (by decide) (by decide) (by decide)⟩

end DomainHunter.WhoisChecker

namespace DomainHunter.Semaphore

theorem count_set_balance (l : List TaskState) (i : Nat) (h : i < l.length)
    (v x : TaskState) :
    (l.set i v).count x + (if l.get ⟨i, h⟩ = x then 1 else 0) =
      l.count x + (if v = x then 1 else 0) := by
  induction l generalizing i with
  | nil => exact absurd h (by simp)
  | cons a tl ih =>
    cases i with
    | zero =>
      simp only [List.set_cons_zero, List.count_cons, List.get]
      by_cases hv : v = x <;> by_cases ha : a = x <;>
        simp [hv, ha, beq_iff_eq]
    | succ n =>
      have hn : n < tl.length := by simpa using h
      simp only [List.set_cons_succ, List.count_cons, List.get]
      have hrec := ih n hn
      omega

theorem inFlight_acquire (ts : List TaskState) (i : Nat) (h : i < ts.length)
    (hidle : ts.get ⟨i, h⟩ = TaskState.idle) :
    inFlight (ts.set i TaskState.running) = inFlight ts + 1 := by
  have hb := count_set_balance ts i h TaskState.running TaskState.running
  rw [hidle] at hb
  simp only [reduceIte, reduceCtorEq] at hb
  unfold inFlight
  omega

theorem inFlight_release (ts : List TaskState) (i : Nat) (h : i < ts.length)
    (hrun : ts.get ⟨i, h⟩ = TaskState.running) :
    inFlight (ts.set i TaskState.finished) + 1 = inFlight ts := by
  have hb := count_set_balance ts i h TaskState.finished TaskState.running
  rw [hrun] at hb
  simp only [reduceIte, reduceCtorEq] at hb
  unfold inFlight
  omega

theorem inFlight_le_of_reach (cap n : Nat) (ts : List TaskState)
    (h : Reach cap n ts) : inFlight ts ≤ cap := by
  unfold Reach at h
  induction h with
  | refl =>
    unfold inFlight
    rw [List.count_replicate]
    simp
  | tail hsteps hstep ih =>
    rename_i mid fin
    cases hstep with
    | acquire i hlt hidle hcap =>
      rw [inFlight_acquire mid i hlt hidle]
      omega
    | release i hlt hrun =>
      have hr := inFlight_release mid i hlt hrun
      omega

theorem semaphore_progress (cap : Nat) (hcap : 0 < cap) (ts : List TaskState) :
    allFinished ts ∨ ∃ ts2, Step cap ts ts2 := by
  by_cases hrun : ∃ i : Fin ts.length, ts.get i = TaskState.running
  · obtain ⟨i, hi⟩ := hrun
    exact Or.inr ⟨_, Step.release ts i.val i.isLt hi⟩
  · by_cases hidle : ∃ i : Fin ts.length, ts.get i = TaskState.idle
    · obtain ⟨i, hi⟩ := hidle
      have hzero : inFlight ts = 0 := by
        unfold inFlight
        rw [List.count_eq_zero]
        intro hmem
        obtain ⟨j, hj, hget⟩ := List.mem_iff_getElem.mp hmem
        exact hrun ⟨⟨j, hj⟩, hget⟩
      refine Or.inr ⟨_, Step.acquire ts i.val i.isLt hi ?_⟩
      rw [hzero]
      exact hcap
    · left
      intro t ht
      obtain ⟨j, hj, hget⟩ := List.mem_iff_getElem.mp ht
      cases t with
      | finished => rfl
      | running => exact absurd ⟨⟨j, hj⟩, hget⟩ hrun
      | idle => exact absurd ⟨⟨j, hj⟩, hget⟩ hidle

theorem pendingWork_decreases (cap : Nat) (ts ts2 : List TaskState)
    (h : Step cap ts ts2) : pendingWork ts2 < pendingWork ts := by
  cases h with
  | acquire i hlt hidle hcap =>
    have h1 := count_set_balance ts i hlt TaskState.running TaskState.idle
    have h2 := count_set_balance ts i hlt TaskState.running TaskState.running
    rw [hidle] at h1 h2
    simp only [reduceIte, reduceCtorEq] at h1 h2
    unfold pendingWork
    omega
  | release i hlt hrun =>
    have h1 := count_set_balance ts i hlt TaskState.finished TaskState.idle
    have h2 := count_set_balance ts i hlt TaskState.finished TaskState.running
    rw [hrun] at h1 h2
    simp only [reduceIte, reduceCtorEq] at h1 h2
    unfold pendingWork
    omega

theorem semaphore_terminates_from (cap : Nat) (hcap : 0 < cap) :
    ∀ m (ts : List TaskState), pendingWork ts = m →
      ∃ ts2, Relation.ReflTransGen (Step cap) ts ts2 ∧ allFinished ts2 := by
  intro m
  induction m using Nat.strong_induction_on with
  | _ m ih =>
    intro ts hm
    rcases semaphore_progress cap hcap ts with hdone | ⟨ts2, hstep⟩
    · exact ⟨ts, Relation.ReflTransGen.refl, hdone⟩
    · have hdec : pendingWork ts2 < m := by
        rw [← hm]
        exact pendingWork_decreases cap ts ts2 hstep
      obtain ⟨ts3, hsteps, hfin⟩ := ih (pendingWork ts2) hdec ts2 rfl
      exact ⟨ts3, Relation.ReflTransGen.head hstep hsteps, hfin⟩

theorem length_of_step (cap : Nat) (ts ts2 : List TaskState)
    (h : Step cap ts ts2) : ts2.length = ts.length := by
  cases h <;> rw [List.length_set]

theorem length_of_reach (cap n : Nat) (ts : List TaskState)
    (h : Reach cap n ts) : ts.length = n := by
  unfold Reach at h
  induction h with
  | refl => exact List.length_replicate n TaskState.idle
  | tail hsteps hstep ih => rw [length_of_step _ _ _ hstep, ih]

end DomainHunter.Semaphore

namespace DomainHunter.Semaphore

theorem length_of_steps (cap : Nat) (a b : List TaskState)
    (h : Relation.ReflTransGen (Step cap) a b) : b.length = a.length := by
  induction h with
  | refl => rfl
  | tail hs hstep ih =>
    rename_i mid fin
    rw [length_of_step cap mid fin hstep, ih]

end DomainHunter.Semaphore

namespace DomainHunter

/-- C8: under the batch runners' semaphore protocol, every state reachable
from an `n`-task batch keeps at most 5 WHOIS lookups (capacity
`whoisConcurrencyLimit`) resp. 50 DNS probes (`dnsConcurrencyLimit`) in
flight; a task performs its network call only while holding a permit
acquired through the guarded `acquire` step; from every reachable state
the batch can either step or is fully finished, and a complete execution
finishing all `n` tasks exists — the runner's `wg.Wait` barrier returns
exactly in such an all-finished state. -/
theorem claim_C8_concurrency_bounds (n : Nat)
    (tsw tsd : List Semaphore.TaskState)
    (hw : Semaphore.Reach Semaphore.whoisConcurrencyLimit n tsw)
    (hd : Semaphore.Reach Semaphore.dnsConcurrencyLimit n tsd) :
    Semaphore.inFlight tsw ≤ 5 ∧
    Semaphore.inFlight tsd ≤ 50 ∧
    (Semaphore.allFinished tsw ∨
      ∃ ts2, Semaphore.Step Semaphore.whoisConcurrencyLimit tsw ts2) ∧
    (Semaphore.allFinished tsd ∨
      ∃ ts2, Semaphore.Step Semaphore.dnsConcurrencyLimit tsd ts2) ∧
    (∃ tsf, Relation.ReflTransGen (Semaphore.Step Semaphore.whoisConcurrencyLimit)
        tsw tsf ∧ Semaphore.allFinished tsf ∧ tsf.length = n) ∧
    (∃ tsf, Relation.ReflTransGen (Semaphore.Step Semaphore.dnsConcurrencyLimit)
        tsd tsf ∧ Semaphore.allFinished tsf ∧ tsf.length = n) := by
  refine ⟨Semaphore.inFlight_le_of_reach _ n tsw hw,
    Semaphore.inFlight_le_of_reach _ n tsd hd,
    Semaphore.semaphore_progress _ (by decide) tsw,
    Semaphore.semaphore_progress _ (by decide) tsd, ?_, ?_⟩
  · obtain ⟨tsf, hsteps, hfin⟩ :=
      Semaphore.semaphore_terminates_from Semaphore.whoisConcurrencyLimit
        (by decide) (Semaphore.pendingWork tsw) tsw rfl
    refine ⟨tsf, hsteps, hfin, ?_⟩
    rw [Semaphore.length_of_steps _ _ _ hsteps,
      Semaphore.length_of_reach _ n tsw hw]
  · obtain ⟨tsf, hsteps, hfin⟩ :=
      Semaphore.semaphore_terminates_from Semaphore.dnsConcurrencyLimit
        (by decide) (Semaphore.pendingWork tsd) tsd rfl
    refine ⟨tsf, hsteps, hfin, ?_⟩
    rw [Semaphore.length_of_steps _ _ _ hsteps,
      Semaphore.length_of_reach _ n tsd hd]

theorem claim_C8_witness :
    Semaphore.Reach Semaphore.whoisConcurrencyLimit 1
      [Semaphore.TaskState.running] ∧
    Semaphore.Reach Semaphore.dnsConcurrencyLimit 1
      [Semaphore.TaskState.running] ∧
    (Semaphore.inFlight [Semaphore.TaskState.running] ≤ 5 ∧
     Semaphore.inFlight [Semaphore.TaskState.running] ≤ 50 ∧
     (Semaphore.allFinished [Semaphore.TaskState.running] ∨
       ∃ ts2, Semaphore.Step Semaphore.whoisConcurrencyLimit
         [Semaphore.TaskState.running] ts2) ∧
     (Semaphore.allFinished [Semaphore.TaskState.running] ∨
       ∃ ts2, Semaphore.Step Semaphore.dnsConcurrencyLimit
         [Semaphore.TaskState.running] ts2) ∧
     (∃ tsf, Relation.ReflTransGen
         (Semaphore.Step Semaphore.whoisConcurrencyLimit)
         [Semaphore.TaskState.running] tsf ∧
         Semaphore.allFinished tsf ∧ tsf.length = 1) ∧
     (∃ tsf, Relation.ReflTransGen
         (Semaphore.Step Semaphore.dnsConcurrencyLimit)
         [Semaphore.TaskState.running] tsf ∧
         Semaphore.allFinished tsf ∧ tsf.length = 1)) := by
  have hw : Semaphore.Reach Semaphore.whoisConcurrencyLimit 1
      [Semaphore.TaskState.running] :=
    Relation.ReflTransGen.tail Relation.ReflTransGen.refl
      (Semaphore.Step.acquire (List.replicate 1 Semaphore.TaskState.idle) 0
        (by decide) rfl (by decide))
  have hd : Semaphore.Reach Semaphore.dnsConcurrencyLimit 1
      [Semaphore.TaskState.running] :=
    Relation.ReflTransGen.tail Relation.ReflTransGen.refl
      (Semaphore.Step.acquire (List.replicate 1 Semaphore.TaskState.idle) 0
        (by decide) rfl (by decide))
  exact ⟨hw, hd, claim_C8_concurrency_bounds 1 _ _ hw hd⟩

end DomainHunter

namespace DomainHunter.Handlers

/-- C9: a `ScanShort` request whose length parameter does not parse or
parses outside 1..3 is answered with an error response (the 400 length
error, or the 405 for a non-POST request) before any domain is generated
and before any DNS or WHOIS lookup is attempted. -/
theorem claim_C9_bad_length_rejected (env : Env)
    (method lengthStr pfxRaw : String) (order1 order2 : List Nat)
    (hbad : ∀ l : Int, atoi lengthStr = some l → l < 1 ∨ 3 < l) :
    (scanShort env method lengthStr pfxRaw order1 order2).generated = [] ∧
    (scanShort env method lengthStr pfxRaw order1 order2).lookups = [] ∧
    ((scanShort env method lengthStr pfxRaw order1 order2).response =
        ScanResponse.methodNotAllowed ∨
      (scanShort env method lengthStr pfxRaw order1 order2).response =
        ScanResponse.badRequest "Length must be 1, 2, or 3") := by
  unfold scanShort
  by_cases hm : method ≠ "POST"
  · rw [if_pos hm]
    exact ⟨rfl, rfl, Or.inl rfl⟩
  · rw [if_neg hm]
    dsimp only
    rcases hq : atoi lengthStr with _ | l
    · exact ⟨rfl, rfl, Or.inr rfl⟩
    · dsimp only
      have hcond : (decide (l < 1) || decide (l > 3)) = true := by
        rcases hbad l hq with h | h <;> simp [h]
      rw [if_pos hcond]
      exact ⟨rfl, rfl, Or.inr rfl⟩

theorem claim_C9_witness :
    (∀ l : Int, atoi "abc" = some l → l < 1 ∨ 3 < l) ∧
    ((scanShort envWhoisDown "POST" "abc" "" [] []).generated = [] ∧
     (scanShort envWhoisDown "POST" "abc" "" [] []).lookups = [] ∧
     ((scanShort envWhoisDown "POST" "abc" "" [] []).response =
        ScanResponse.methodNotAllowed ∨
      (scanShort envWhoisDown "POST" "abc" "" [] []).response =
        ScanResponse.badRequest "Length must be 1, 2, or 3")) := by
  have hbad : ∀ l : Int, atoi "abc" = some l → l < 1 ∨ 3 < l := by
    intro l hl
    rw [show atoi "abc" = none from rfl] at hl
    exact Option.noConfusion hl
  exact ⟨hbad, claim_C9_bad_length_rejected envWhoisDown "POST" "abc" "" [] [] hbad⟩

end DomainHunter.Handlers

namespace DomainHunter.WhoisChecker

theorem length_flatMap_const {α β : Type} (l : List α) (f : α → List β) (k : Nat)
    (h : ∀ a ∈ l, (f a).length = k) : (l.flatMap f).length = l.length * k := by
  induction l with
  | nil => simp
  | cons a tl ih =>
    rw [List.flatMap_cons, List.length_append, h a (List.mem_cons_self a tl),
      ih (fun b hb => h b (List.mem_cons_of_mem a hb)), List.length_cons,
      Nat.succ_mul]
    omega

theorem utf8Size_of_mem_shortChars : ∀ c ∈ shortChars, c.utf8Size = 1 := by
  decide

theorem sum_utf8Size_of_alnum (cs : List Char)
    (h : ∀ c ∈ cs, c ∈ shortChars) :
    (cs.map Char.utf8Size).sum = cs.length := by
  induction cs with
  | nil => rfl
  | cons c tl ih =>
    have hc : c.utf8Size = 1 :=
      utf8Size_of_mem_shortChars c (h c (List.mem_cons_self c tl))
    rw [List.map_cons, List.sum_cons, hc,
      ih (fun b hb => h b (List.mem_cons_of_mem c hb)), List.length_cons]
    omega

theorem goLen_eq_of_alnum (pfx : String)
    (h : ∀ c ∈ pfx.data, c ∈ shortChars) :
    goLen pfx = pfx.data.length :=
  sum_utf8Size_of_alnum pfx.data h

theorem shortNames_length (pfx : String) (k : Nat) (hk : k ≤ 3) :
    (shortNames k pfx).length = 36 ^ k := by
  rcases k with _ | _ | _ | _ | n
  · rfl
  · simp only [shortNames, List.length_map]
    decide
  · simp only [shortNames]
    rw [length_flatMap_const _ _ 36
      (fun a ha => by rw [List.length_map]; decide)]
    decide
  · simp only [shortNames]
    rw [length_flatMap_const _ _ 1296 (fun a ha => by
      rw [length_flatMap_const _ _ 36
        (fun b hb => by rw [List.length_map]; decide)]
      decide)]
    decide
  · omega

theorem shortNames_mem (pfx : String) (k : Nat) (name : String)
    (hmem : name ∈ shortNames k pfx) :
    ∃ cs : List Char, name.data = pfx.data ++ cs ∧ cs.length = k ∧
      ∀ c ∈ cs, c ∈ shortChars := by
  rcases k with _ | _ | _ | _ | n
  · simp only [shortNames, List.mem_singleton] at hmem
    subst hmem
    exact ⟨[], by simp, rfl, by simp⟩
  · simp only [shortNames, List.mem_map] at hmem
    obtain ⟨c, hc, rfl⟩ := hmem
    refine ⟨[c], by simp, rfl, ?_⟩
    intro x hx
    rw [List.mem_singleton] at hx
    subst hx
    exact hc
  · simp only [shortNames, List.mem_flatMap, List.mem_map] at hmem
    obtain ⟨c1, hc1, c2, hc2, rfl⟩ := hmem
    refine ⟨[c1, c2], by simp, rfl, ?_⟩
    intro x hx
    rcases List.mem_cons.mp hx with rfl | hx
    · exact hc1
    · rw [List.mem_singleton] at hx
      subst hx
      exact hc2
  · simp only [shortNames, List.mem_flatMap, List.mem_map] at hmem
    obtain ⟨c1, hc1, c2, hc2, c3, hc3, rfl⟩ := hmem
    refine ⟨[c1, c2, c3], by simp, rfl, ?_⟩
    intro x hx
    rcases List.mem_cons.mp hx with rfl | hx
    · exact hc1
    rcases List.mem_cons.mp hx with rfl | hx
    · exact hc2
    rw [List.mem_singleton] at hx
    subst hx
    exact hc3
  · simp only [shortNames, List.not_mem_nil] at hmem

theorem generate_eq_inRange (len : Int) (pfx : String)
    (h1 : 1 ≤ len) (h3 : len ≤ 3) (hle : (goLen pfx : Int) ≤ len) :
    GenerateShortDomainsMultiTLD len pfx =
      (shortNames (len - (goLen pfx : Int)).toNat pfx).flatMap
        (fun name => PremiumTLDs.map (fun tld => name ++ "." ++ tld)) := by
  have hg1 : ¬ ((decide (len < 1) || decide (len > 3)) = true) := by
    simp only [Bool.or_eq_true, decide_eq_true_eq]
    omega
  have hg2 : ¬ (len - (goLen pfx : Int) < 0) := by omega
  unfold GenerateShortDomainsMultiTLD
  rw [if_neg hg1]
  dsimp only
  rw [if_neg hg2]

/-- C10 (counterexample): the generator does not validate the prefix
alphabet — for length 1 and prefix "A" it returns the 24 domains built
from the name "A", which is not drawn from the lowercase alphanumeric
alphabet, refuting the claim's alphabet clause for arbitrary prefixes. -/
theorem claim_C10_counterexample : ¬ shortScanClaim 1 "A" := by
  intro h
  obtain ⟨-, -, hall⟩ := h
  have hmem : "A.com" ∈ GenerateShortDomainsMultiTLD 1 "A" := by decide
  obtain ⟨name, tld, heq, htld, hpre, hlen, hchars⟩ := hall "A.com" hmem
  have hA : 'A' ∈ name.data := hpre.subset (by decide)
  exact absurd (hchars 'A' hA) (by decide)

/-- C10 (amended): for every length 1..3 and every prefix drawn from the
lowercase alphanumeric alphabet whose byte length is at most the length,
`GenerateShortDomainsMultiTLD` returns exactly
`36 ^ (length − len(prefix)) × 24` domains of the form `name ++ "." ++ tld`
with `name` extending the prefix to exactly the requested length over the
alphabet and `tld` among the 24 `PremiumTLDs`; for a length outside 1..3
or a prefix longer than the length it returns the empty list. -/
theorem claim_C10_generator (len : Int) (pfx : String) :
    (1 ≤ len → len ≤ 3 → (∀ c ∈ pfx.data, c ∈ shortChars) →
      (goLen pfx : Int) ≤ len → shortScanClaim len pfx) ∧
    (len < 1 ∨ 3 < len ∨ len < (goLen pfx : Int) →
      GenerateShortDomainsMultiTLD len pfx = []) := by
  constructor
  · intro h1 h3 halnum hle
    have hgo : goLen pfx = pfx.data.length := goLen_eq_of_alnum pfx halnum
    have hgen := generate_eq_inRange len pfx h1 h3 hle
    have hk3 : (len - (goLen pfx : Int)).toNat ≤ 3 := by omega
    refine ⟨?_, by decide, ?_⟩
    · rw [hgen, length_flatMap_const _ _ 24
        (fun a ha => by rw [List.length_map]; decide),
        shortNames_length pfx _ hk3]
    · intro d hd
      rw [hgen, List.mem_flatMap] at hd
      obtain ⟨name, hname, hd2⟩ := hd
      rw [List.mem_map] at hd2
      obtain ⟨tld, htld, rfl⟩ := hd2
      obtain ⟨cs, hdata, hcslen, hcschars⟩ := shortNames_mem pfx _ name hname
      refine ⟨name, tld, rfl, htld, ⟨cs, hdata.symm⟩, ?_, ?_⟩
      · rw [hdata, List.length_append, hcslen]
        omega
      · intro c hc
        rw [hdata, List.mem_append] at hc
        rcases hc with hc | hc
        · exact halnum c hc
        · exact hcschars c hc
  · intro hout
    unfold GenerateShortDomainsMultiTLD
    by_cases hb : (decide (len < 1) || decide (len > 3)) = true
    · rw [if_pos hb]
    · rw [if_neg hb]
      dsimp only
      have hneg : len - (goLen pfx : Int) < 0 := by
        simp only [Bool.or_eq_true, decide_eq_true_eq] at hb
        push_neg at hb
        omega
      rw [if_pos hneg]

theorem claim_C10_witness :
    ((1 : Int) ≤ 1 ∧ (1 : Int) ≤ 3 ∧ (∀ c ∈ "a".data, c ∈ shortChars) ∧
      (goLen "a" : Int) ≤ 1 ∧ shortScanClaim 1 "a") ∧
    (((4 : Int) < 1 ∨ (3 : Int) < 4 ∨ (4 : Int) < (goLen "" : Int)) ∧
      GenerateShortDomainsMultiTLD 4 "" = []) :=
  ⟨⟨by decide, by decide, by decide, by decide,
    (claim_C10_generator 1 "a").1 (by decide) (by decide) (by decide)
      (by decide)⟩,
   ⟨Or.inr (Or.inl (by decide)),
    (claim_C10_generator 4 "").2 (Or.inr (Or.inl (by decide)))⟩⟩

end DomainHunter.WhoisChecker
